import Mathlib

/-!
Verification development for the shadow-generator repository (`src/main.py`).

The program composites a foreground subject onto a background and synthesizes
a cast shadow.  Its two components, `extract_foreground_mask` and
`generate_shadow`, are embedded here shallowly:

* images are lists of rows of exact rationals (single channel) or of RGB
  triples (three channels); shapes are data, as in numpy, not types;
* the external image-processing collaborators — `cv2.resize`,
  `cv2.warpAffine`, `cv2.GaussianBlur`, `cv2.grabCut`, `cv2.morphologyEx`,
  `scipy.ndimage.distance_transform_edt`, and the transcendental `np.exp` —
  are parameters of the pipeline (fields of `Collab` / `SegCollab`), since
  they are library calls outside this repository; theorems that need a
  documented property of a collaborator (shape preservation, value bounds
  from interpolation) take it as a hypothesis;
* the trigonometric computation of `generate_shadow` (lines 69-77 of
  `src/main.py`) is modelled over the real numbers in a separate section,
  since exact trigonometry is not rational; inside the rational pipeline the
  values of `cos θ`, `sin θ` and `tan φ` are passed in as parameters;
* `ys.max()` on the empty selection of line 83 raises a `ValueError`; the
  embedding renders this fallible step as an `Except` error result.
-/

open Filter Topology

/-- Single-channel float image: a list of rows of rational pixel values. -/
abbrev Gray : Type := List (List ℚ)

/-- An RGB pixel: three channel values. -/
abbrev Pix : Type := ℚ × ℚ × ℚ

/-- Three-channel (RGB) image. -/
abbrev Color : Type := List (List Pix)

/-- Pixel access (row `y`, column `x`) with out-of-range default `0`. -/
def px (img : Gray) (y x : ℕ) : ℚ := (img.getD y []).getD x 0

/-- Pixel access in a colour image. -/
def cpx (img : Color) (y x : ℕ) : Pix := (img.getD y []).getD x (0, 0, 0)

/-- The image has exactly `H` rows, each of width `W`. -/
def HasDims {α : Type} (img : List (List α)) (H W : ℕ) : Prop :=
  img.length = H ∧ ∀ r ∈ img, r.length = W

instance {α : Type} (img : List (List α)) (H W : ℕ) : Decidable (HasDims img H W) := by
  unfold HasDims; infer_instance

/-- Every pixel value of a grayscale image satisfies `P`. -/
def AllPx (P : ℚ → Prop) (img : Gray) : Prop := ∀ r ∈ img, ∀ v ∈ r, P v

instance (P : ℚ → Prop) [DecidablePred P] (img : Gray) : Decidable (AllPx P img) := by
  unfold AllPx; infer_instance

/-- Every channel value of every pixel of a colour image satisfies `P`. -/
def AllCh (P : ℚ → Prop) (img : Color) : Prop :=
  ∀ r ∈ img, ∀ p ∈ r, P (Prod.fst p) ∧ P (Prod.fst (Prod.snd p)) ∧ P (Prod.snd (Prod.snd p))

instance (P : ℚ → Prop) [DecidablePred P] (img : Color) : Decidable (AllCh P img) := by
  unfold AllCh; infer_instance

section ListToolkit

variable {α β γ : Type}

theorem getD_of_getElem? (l : List α) (i : ℕ) (a d : α) (h : l[i]? = some a) :
    l.getD i d = a := by
  rw [List.getD_eq_getElem?_getD, h]; rfl

theorem getD_mem (l : List α) (i : ℕ) (d : α) (h : i < l.length) : l.getD i d ∈ l := by
  rw [List.getD_eq_getElem?_getD, List.getElem?_eq_getElem h]
  exact List.getElem_mem h

theorem getD_map (f : α → β) (l : List α) (i : ℕ) (d : β) (e : α) (h : i < l.length) :
    (l.map f).getD i d = f (l.getD i e) := by
  rw [List.getD_eq_getElem?_getD, List.getElem?_map, List.getElem?_eq_getElem h,
    getD_of_getElem? l i _ e (List.getElem?_eq_getElem h)]
  rfl

theorem getD_range_map (f : ℕ → α) (n i : ℕ) (d : α) (h : i < n) :
    ((List.range n).map f).getD i d = f i := by
  have hi : i < (List.range n).length := by simpa using h
  rw [getD_map f _ i d 0 hi, getD_of_getElem? _ i i 0 (List.getElem?_range h)]

theorem getD_zipWith (f : α → β → γ) (a : List α) (b : List β) (i : ℕ)
    (da : α) (db : β) (dc : γ) (ha : i < a.length) (hb : i < b.length) :
    (List.zipWith f a b).getD i dc = f (a.getD i da) (b.getD i db) := by
  rw [List.getD_eq_getElem?_getD, List.getElem?_zipWith,
    List.getElem?_eq_getElem ha, List.getElem?_eq_getElem hb,
    getD_of_getElem? a i _ da (List.getElem?_eq_getElem ha),
    getD_of_getElem? b i _ db (List.getElem?_eq_getElem hb)]
  rfl

theorem foldl_max_le_iff (l : List ℕ) (a b : ℕ) :
    l.foldl max a ≤ b ↔ a ≤ b ∧ ∀ y ∈ l, y ≤ b := by
  induction l generalizing a with
  | nil => simp
  | cons c t ih =>
    simp only [List.foldl_cons, ih, max_le_iff, List.mem_cons]
    constructor
    · rintro ⟨⟨h1, h2⟩, h3⟩
      exact ⟨h1, fun y hy => hy.elim (fun e => e ▸ h2) (h3 y)⟩
    · rintro ⟨h1, h2⟩
      exact ⟨⟨h1, h2 c (Or.inl rfl)⟩, fun y hy => h2 y (Or.inr hy)⟩

theorem le_foldl_max (l : List ℕ) (a : ℕ) (y : ℕ) (hy : y ∈ l) : y ≤ l.foldl max a :=
  ((foldl_max_le_iff l a _).1 le_rfl).2 y hy

theorem self_le_foldl_max (l : List ℕ) (a : ℕ) : a ≤ l.foldl max a :=
  ((foldl_max_le_iff l a _).1 le_rfl).1

theorem foldl_max_mem (l : List ℕ) (a : ℕ) : l.foldl max a = a ∨ l.foldl max a ∈ l := by
  induction l generalizing a with
  | nil => exact Or.inl rfl
  | cons c t ih =>
    simp only [List.foldl_cons, List.mem_cons]
    rcases ih (max a c) with h | h
    · rcases max_choice a c with hm | hm
      · exact Or.inl (h.trans hm)
      · exact Or.inr (Or.inl (h.trans hm))
    · exact Or.inr (Or.inr h)

end ListToolkit

section PipelineDefs

/-- Elementwise map over a grayscale image (numpy elementwise ufunc). -/
def gmap (f : ℚ → ℚ) (img : Gray) : Gray := img.map fun r => r.map f

/-- Elementwise binary operation of two grayscale images of equal shape
(numpy broadcasting of two `H×W` arrays). -/
def gzip (f : ℚ → ℚ → ℚ) (a b : Gray) : Gray :=
  List.zipWith (fun ra rb => List.zipWith f ra rb) a b

/-- Index-aware elementwise map: entry `(y, x)` becomes `f y x` of its value.
Used for boolean-mask assignment such as `contact[yy < foot_y - 5] = 0`. -/
def gIdxMap (f : ℕ → ℕ → ℚ → ℚ) (img : Gray) : Gray :=
  (List.range img.length).map fun y =>
    (List.range ((img.getD y []).length)).map fun x => f y x (px img y x)

/-- Python `int()` applied to an exact value: truncation toward zero. -/
def itrunc (q : ℚ) : ℤ := if 0 ≤ q then ⌊q⌋ else ⌈q⌉

/-- Line 74: `shadow_len = 220 / max(0.2, np.tan(phi))`, as a function of the
value of `np.tan(phi)`. -/
def shadowLenOf (tanPhi : ℚ) : ℚ := 220 / max (1 / 5) tanPhi

/-- Line 82, `np.where(mask > t)`: the row-major list of `(y, x)` index pairs
of the entries strictly greater than `t`. -/
def whereGT (t : ℚ) (img : Gray) : List (ℕ × ℕ) :=
  (List.range img.length).flatMap fun y =>
    (((List.range ((img.getD y []).length)).filter fun x => t < px img y x).map
      fun x => (y, x))

/-- Lines 82-84: the foot point.  `ys.max()` raises `ValueError` on an empty
selection, rendered as `none`; otherwise `foot_y = ys.max()` and
`foot_x = int(xs.mean())` (truncated mean, which for these nonnegative
integers is the natural-number quotient of their sum by their count). -/
def footPoint (mask : Gray) : Option (ℕ × ℕ) :=
  let idx := whereGT (1 / 5) mask
  match idx with
  | [] => none
  | _ :: _ => some ((idx.map Prod.fst).foldl max 0, (idx.map Prod.snd).sum / idx.length)

/-- Lines 96-99: `dist = (xx - foot_x)*light_dir[0] + (yy - foot_y)*light_dir[1]`
clipped to be nonnegative, on the `H×W` grid (`meshgrid` with `ij` indexing:
`yy` is the row index, `xx` the column index). -/
def distField (H W : ℕ) (fx fy : ℕ) (cosT sinT : ℚ) : Gray :=
  (List.range H).map fun y : ℕ =>
    (List.range W).map fun x : ℕ =>
      max 0 (((x : ℚ) - (fx : ℚ)) * cosT + ((y : ℚ) - (fy : ℚ)) * sinT)

/-- The external image-processing collaborators used by `generate_shadow`. -/
structure Collab where
  /-- `cv2.resize` of a grayscale image to height `H`, width `W`. -/
  resizeG : ℕ → ℕ → Gray → Gray
  /-- `cv2.resize` of a colour image to height `H`, width `W`. -/
  resizeC : ℕ → ℕ → Color → Color
  /-- `cv2.warpAffine` with the pure translation matrix `[[1,0,dx],[0,1,dy]]`
  and output size `(W, H)` (height `H`, width `W`). -/
  warp : ℤ → ℤ → ℕ → ℕ → Gray → Gray
  /-- `cv2.GaussianBlur(·, (0, 0), r)` at standard deviation `r`. -/
  blur : ℕ → Gray → Gray
  /-- `scipy.ndimage.distance_transform_edt`. -/
  edt : Gray → Gray
  /-- the transcendental `np.exp` on exact values. -/
  exp : ℚ → ℚ

/-- Lines 96-113: the soft shadow field.  `blurred` starts as
`np.zeros_like(shadow)` and accumulates the four Gaussian blurs of the
translated silhouette `shadow0`, is divided by 4, and is multiplied
elementwise by the falloff `opacity = np.exp(-dist / 160)`. -/
def softShadowField (C : Collab) (shadow0 : Gray) (fx fy : ℕ)
    (cosT sinT : ℚ) (H W : ℕ) : Gray :=
  let dist := distField H W fx fy cosT sinT
  let opacity := gmap (fun d => C.exp (-d / 160)) dist
  let zeros := gmap (fun _ => 0) shadow0
  let blurSum := [3, 7, 15, 30].foldl (fun acc r => gzip (· + ·) acc (C.blur r shadow0)) zeros
  let blurred := gmap (fun v => v / 4) blurSum
  gzip (· * ·) blurred opacity

/-- Lines 118-121: the contact shadow.  `inv = 1 - mask`,
`contact = np.exp(-distance_transform_edt(inv) / 4.0)`, then
`contact[yy < foot_y - 5] = 0` (integer arithmetic on `foot_y - 5`). -/
def contactField (C : Collab) (maskR : Gray) (fy : ℕ) : Gray :=
  let inv := gmap (fun v => 1 - v) maskR
  let contact := gmap (fun d => C.exp (-d / 4)) (C.edt inv)
  gIdxMap (fun y _ v => if (y : ℤ) < (fy : ℤ) - 5 then 0 else v) contact

/-- Lines 123-124: `shadow = np.clip(np.maximum(shadow, contact * 0.85), 0, 1)`. -/
def finalShadow (soft contact : Gray) : Gray :=
  gmap (fun v => min 1 (max 0 v)) (gzip max soft (gmap (fun v => v * (17 / 20)) contact))

/-- Channel-wise scaling of a pixel by a scalar (numpy broadcast `p * s`). -/
def pmul (p : Pix) (s : ℚ) : Pix := (p.1 * s, p.2.1 * s, p.2.2 * s)

/-- Channel-wise sum of two pixels. -/
def padd (p q : Pix) : Pix := (p.1 + q.1, p.2.1 + q.2.1, p.2.2 + q.2.2)

/-- Line 130: `comp = comp * (1 - shadow[..., None])`. -/
def darken (bg : Color) (sh : Gray) : Color :=
  List.zipWith (fun rc rs => List.zipWith (fun p s => pmul p (1 - s)) rc rs) bg sh

/-- Line 131: `comp = comp * (1 - mask[..., None]) + fg_rgb * mask[..., None]`. -/
def blendFg (c fgR : Color) (m : Gray) : Color :=
  List.zipWith
    (fun rc rfm => List.zipWith (fun p q => padd (pmul p (1 - Prod.snd q)) (pmul (Prod.fst q) (Prod.snd q))) rc rfm)
    c (List.zipWith (fun rf rm => List.zipWith Prod.mk rf rm) fgR m)

/-- Lines 129-131: the composite, from background, resized foreground,
resized mask and final shadow field. -/
def composeImg (bg fgR : Color) (maskR sh : Gray) : Color :=
  blendFg (darken bg sh) fgR maskR

/-- The fatal conditions of `generate_shadow`. -/
inductive ShadowError : Type
  /-- Empty selection in `np.where(mask > 0.2)`: `ys.max()` raises. -/
  | degenerateMask : ShadowError
deriving DecidableEq

/-- Lines 59-137, `generate_shadow`.  `cosT`, `sinT`, `tanPhi` are the values
of `np.cos(theta)`, `np.sin(theta)` and `np.tan(phi)` computed on lines 69-74
(their trigonometric definitions are verified over `ℝ` below).  Returns the
triple `(comp, shadow, mask)` of line 133 before the 8-bit quantization,
which is modelled by `astypeU8`. -/
def generateShadow (C : Collab) (fg_rgb : Color) (mask : Gray) (bg_rgb : Color)
    (cosT sinT tanPhi : ℚ) : Except ShadowError (Color × Gray × Gray) :=
  let H := bg_rgb.length
  let W := (bg_rgb.headD []).length
  let fgR := C.resizeC H W fg_rgb
  let maskR := C.resizeG H W mask
  let shadow_len := shadowLenOf tanPhi
  let dx := itrunc (cosT * shadow_len)
  let dy := itrunc (sinT * shadow_len)
  match footPoint maskR with
  | none => .error .degenerateMask
  | some (fy, fx) =>
    let shadow0 := C.warp dx dy H W maskR
    let soft := softShadowField C shadow0 fx fy cosT sinT H W
    let contact := contactField C maskR fy
    let sh := finalShadow soft contact
    .ok (composeImg bg_rgb fgR maskR sh, sh, maskR)

/-- `astype(np.uint8)` on a float value: C-style truncation toward zero and
reduction modulo 256. -/
def astypeU8 (q : ℚ) : ℕ := (itrunc q).toNat % 256

end PipelineDefs

section RealTrig

/-- `np.deg2rad`: degrees to radians. -/
noncomputable def deg2rad (x : ℝ) : ℝ := x * (Real.pi / 180)

/-- Lines 69 and 72: `light_dir = np.array([np.cos(theta), np.sin(theta)])`
with `theta = np.deg2rad(angle)`. -/
noncomputable def lightDir (angle : ℝ) : ℝ × ℝ :=
  (Real.cos (deg2rad angle), Real.sin (deg2rad angle))

/-- Lines 70 and 74: `shadow_len = 220 / max(0.2, np.tan(phi))` with
`phi = np.deg2rad(elevation)`. -/
noncomputable def shadowLen (elevation : ℝ) : ℝ :=
  220 / max 0.2 (Real.tan (deg2rad elevation))

/-- Python `int()` on an exact real value: truncation toward zero. -/
noncomputable def truncR (x : ℝ) : ℤ := if 0 ≤ x then ⌊x⌋ else ⌈x⌉

/-- Lines 76-77: `dx = int(light_dir[0] * shadow_len)`,
`dy = int(light_dir[1] * shadow_len)`. -/
noncomputable def shadowDisp (angle elevation : ℝ) : ℤ × ℤ :=
  (truncR ((lightDir angle).1 * shadowLen elevation),
   truncR ((lightDir angle).2 * shadowLen elevation))

end RealTrig

section Segmenter

/-- The external collaborators used by `extract_foreground_mask`. -/
structure SegCollab where
  /-- `cv2.grabCut` seeded with a rectangle: the per-pixel label array it
  leaves in its mask buffer (`GC_BGD = 0`, `GC_FGD = 1`, `GC_PR_BGD = 2`,
  `GC_PR_FGD = 3`). -/
  grabCut : Color → ℕ × ℕ × ℕ × ℕ → List (List ℕ)
  /-- `cv2.morphologyEx(·, cv2.MORPH_CLOSE, np.ones((5, 5)))`. -/
  morphClose : Gray → Gray
  /-- `cv2.GaussianBlur(·, (5, 5), 0)`. -/
  blur5 : Gray → Gray

/-- Line 35: `rect = (int(w*0.15), int(h*0.05), int(w*0.7), int(h*0.9))`
(exact products floored, all operands nonnegative). -/
def gcRect (h w : ℕ) : ℕ × ℕ × ℕ × ℕ := (w * 15 / 100, h * 5 / 100, w * 7 / 10, h * 9 / 10)

/-- Lines 26-51, `extract_foreground_mask`: run GrabCut from the seed
rectangle, collapse labels `GC_FGD` and `GC_PR_FGD` to `1.0` and the rest to
`0.0`, then morphological closing and a 5×5 Gaussian blur. -/
def extract_foreground_mask (S : SegCollab) (img : Color) : Gray :=
  let h := img.length
  let w := (img.headD []).length
  let labels := S.grabCut img (gcRect h w)
  let mask : Gray := labels.map fun r => r.map fun v => if v = 1 ∨ v = 3 then 1 else 0
  S.blur5 (S.morphClose mask)

end Segmenter

section ShapeLemmas

variable {α β γ : Type}

theorem getD_row_length (img : List (List α)) (H W y : ℕ) (h : HasDims img H W)
    (hy : y < H) (d : List α) : (img.getD y d).length = W :=
  h.2 _ (getD_mem img y d (h.1 ▸ hy))

theorem hasDims_map_rows (g : List α → List β) (W : ℕ)
    (hg : ∀ r : List α, r.length = W → (g r).length = W)
    (a : List (List α)) (H : ℕ) (ha : HasDims a H W) : HasDims (a.map g) H W := by
  refine ⟨by simp [ha.1], ?_⟩
  intro r hr
  obtain ⟨r0, hr0, rfl⟩ := List.mem_map.1 hr
  exact hg r0 (ha.2 r0 hr0)

theorem hasDims_zipWith_rows (g : List α → List β → List γ) (W : ℕ)
    (hg : ∀ ra rb, ra.length = W → rb.length = W → (g ra rb).length = W)
    (a : List (List α)) (b : List (List β)) (H : ℕ)
    (ha : HasDims a H W) (hb : HasDims b H W) : HasDims (List.zipWith g a b) H W := by
  refine ⟨by simp [List.length_zipWith, ha.1, hb.1], ?_⟩
  intro r hr
  obtain ⟨i, hi, rfl⟩ := List.mem_iff_getElem.1 hr
  rw [List.getElem_zipWith]
  have hia : i < a.length := by simp [List.length_zipWith] at hi; omega
  have hib : i < b.length := by simp [List.length_zipWith] at hi; omega
  exact hg _ _ (ha.2 _ (List.getElem_mem hia)) (hb.2 _ (List.getElem_mem hib))

theorem hasDims_gmap (f : ℚ → ℚ) (img : Gray) (H W : ℕ) (h : HasDims img H W) :
    HasDims (gmap f img) H W :=
  hasDims_map_rows _ W (fun r hr => by simpa using hr) img H h

theorem hasDims_gzip (f : ℚ → ℚ → ℚ) (a b : Gray) (H W : ℕ)
    (ha : HasDims a H W) (hb : HasDims b H W) : HasDims (gzip f a b) H W :=
  hasDims_zipWith_rows _ W
    (fun ra rb hra hrb => by simp [List.length_zipWith, hra, hrb]) a b H ha hb

theorem hasDims_gIdxMap (f : ℕ → ℕ → ℚ → ℚ) (img : Gray) (H W : ℕ)
    (h : HasDims img H W) : HasDims (gIdxMap f img) H W := by
  refine ⟨by rw [gIdxMap, List.length_map, List.length_range, h.1], ?_⟩
  intro r hr
  rw [gIdxMap] at hr
  obtain ⟨y, hy, rfl⟩ := List.mem_map.1 hr
  rw [List.length_map, List.length_range,
    getD_row_length img H W y h (h.1 ▸ List.mem_range.1 hy)]

theorem hasDims_distField (H W fx fy : ℕ) (cosT sinT : ℚ) :
    HasDims (distField H W fx fy cosT sinT) H W := by
  constructor
  · rw [distField, List.length_map, List.length_range]
  · intro r hr
    rw [distField] at hr
    obtain ⟨y, _, rfl⟩ := List.mem_map.1 hr
    rw [List.length_map, List.length_range]

theorem hasDims_softShadowField (C : Collab) (shadow0 : Gray) (fx fy : ℕ)
    (cosT sinT : ℚ) (H W : ℕ) (h0 : HasDims shadow0 H W)
    (hb : ∀ r ∈ [3, 7, 15, 30], HasDims (C.blur r shadow0) H W) :
    HasDims (softShadowField C shadow0 fx fy cosT sinT H W) H W := by
  unfold softShadowField
  refine hasDims_gzip _ _ _ H W (hasDims_gmap _ _ H W ?_) (hasDims_gmap _ _ H W (hasDims_distField H W fx fy cosT sinT))
  simp only [List.foldl_cons, List.foldl_nil]
  have z : HasDims (gmap (fun _ => (0 : ℚ)) shadow0) H W := hasDims_gmap _ _ H W h0
  refine hasDims_gzip _ _ _ H W
    (hasDims_gzip _ _ _ H W (hasDims_gzip _ _ _ H W (hasDims_gzip _ _ _ H W z ?_) ?_) ?_) ?_ <;>
    exact hb _ (by simp)

theorem hasDims_contactField (C : Collab) (maskR : Gray) (fy : ℕ) (H W : ℕ)
    (he : HasDims (C.edt (gmap (fun v => 1 - v) maskR)) H W) :
    HasDims (contactField C maskR fy) H W :=
  hasDims_gIdxMap _ _ H W (hasDims_gmap _ _ H W he)

theorem hasDims_finalShadow (soft contact : Gray) (H W : ℕ)
    (hs : HasDims soft H W) (hc : HasDims contact H W) :
    HasDims (finalShadow soft contact) H W :=
  hasDims_gmap _ _ H W (hasDims_gzip _ _ _ H W hs (hasDims_gmap _ _ H W hc))

theorem hasDims_darken (bg : Color) (sh : Gray) (H W : ℕ)
    (hb : HasDims bg H W) (hs : HasDims sh H W) : HasDims (darken bg sh) H W :=
  hasDims_zipWith_rows _ W
    (fun ra rb hra hrb => by simp [List.length_zipWith, hra, hrb]) bg sh H hb hs

theorem hasDims_blendFg (c fgR : Color) (m : Gray) (H W : ℕ)
    (hc : HasDims c H W) (hf : HasDims fgR H W) (hm : HasDims m H W) :
    HasDims (blendFg c fgR m) H W := by
  unfold blendFg
  refine hasDims_zipWith_rows _ W
    (fun ra rb hra hrb => by simp [List.length_zipWith, hra, hrb]) _ _ H hc ?_
  exact hasDims_zipWith_rows _ W
    (fun ra rb hra hrb => by simp [List.length_zipWith, hra, hrb]) _ _ H hf hm

theorem hasDims_composeImg (bg fgR : Color) (maskR sh : Gray) (H W : ℕ)
    (hb : HasDims bg H W) (hf : HasDims fgR H W) (hm : HasDims maskR H W)
    (hs : HasDims sh H W) : HasDims (composeImg bg fgR maskR sh) H W :=
  hasDims_blendFg _ _ _ H W (hasDims_darken _ _ H W hb hs) hf hm

end ShapeLemmas

section PointwiseLemmas

theorem px_gmap (f : ℚ → ℚ) (img : Gray) (H W y x : ℕ)
    (h : HasDims img H W) (hy : y < H) (hx : x < W) :
    px (gmap f img) y x = f (px img y x) := by
  simp only [px, gmap]
  rw [getD_map _ img y [] [] (hy.trans_eq h.1.symm)]
  exact getD_map f _ x 0 0 (by rw [getD_row_length img H W y h hy]; exact hx)

theorem px_gzip (f : ℚ → ℚ → ℚ) (a b : Gray) (H W y x : ℕ)
    (ha : HasDims a H W) (hb : HasDims b H W) (hy : y < H) (hx : x < W) :
    px (gzip f a b) y x = f (px a y x) (px b y x) := by
  simp only [px, gzip]
  rw [getD_zipWith _ a b y [] [] [] (hy.trans_eq ha.1.symm) (hy.trans_eq hb.1.symm)]
  exact getD_zipWith f _ _ x 0 0 0
    (by rw [getD_row_length a H W y ha hy]; exact hx)
    (by rw [getD_row_length b H W y hb hy]; exact hx)

theorem px_gIdxMap (f : ℕ → ℕ → ℚ → ℚ) (img : Gray) (H W y x : ℕ)
    (h : HasDims img H W) (hy : y < H) (hx : x < W) :
    px (gIdxMap f img) y x = f y x (px img y x) := by
  conv_lhs => rw [px, gIdxMap]
  rw [getD_range_map _ _ y [] (hy.trans_eq h.1.symm)]
  rw [getD_range_map _ _ x 0 (by rw [getD_row_length img H W y h hy]; exact hx)]

theorem px_distField (H W fx fy y x : ℕ) (cosT sinT : ℚ) (hy : y < H) (hx : x < W) :
    px (distField H W fx fy cosT sinT) y x
      = max 0 (((x : ℚ) - (fx : ℚ)) * cosT + ((y : ℚ) - (fy : ℚ)) * sinT) := by
  conv_lhs => rw [px, distField]
  rw [getD_range_map _ _ y [] hy, getD_range_map _ _ x 0 hx]

theorem px_softShadowField (C : Collab) (shadow0 : Gray) (fx fy : ℕ)
    (cosT sinT : ℚ) (H W y x : ℕ) (h0 : HasDims shadow0 H W)
    (hb : ∀ r ∈ [3, 7, 15, 30], HasDims (C.blur r shadow0) H W)
    (hy : y < H) (hx : x < W) :
    px (softShadowField C shadow0 fx fy cosT sinT H W) y x
      = ((px (C.blur 3 shadow0) y x + px (C.blur 7 shadow0) y x
          + px (C.blur 15 shadow0) y x + px (C.blur 30 shadow0) y x) / 4)
        * C.exp (-(max 0 (((x : ℚ) - (fx : ℚ)) * cosT + ((y : ℚ) - (fy : ℚ)) * sinT)) / 160) := by
  have h3 := hb 3 (by simp)
  have h7 := hb 7 (by simp)
  have h15 := hb 15 (by simp)
  have h30 := hb 30 (by simp)
  have hz : HasDims (gmap (fun _ => (0 : ℚ)) shadow0) H W := hasDims_gmap _ _ H W h0
  have hs3 := hasDims_gzip (· + ·) _ _ H W hz h3
  have hs7 := hasDims_gzip (· + ·) _ _ H W hs3 h7
  have hs15 := hasDims_gzip (· + ·) _ _ H W hs7 h15
  have hs30 := hasDims_gzip (· + ·) _ _ H W hs15 h30
  have hd := hasDims_distField H W fx fy cosT sinT
  simp only [softShadowField, List.foldl_cons, List.foldl_nil]
  rw [px_gzip _ _ _ H W y x (hasDims_gmap _ _ H W hs30) (hasDims_gmap _ _ H W hd) hy hx,
    px_gmap _ _ H W y x hs30 hy hx, px_gmap _ _ H W y x hd hy hx,
    px_gzip _ _ _ H W y x hs15 h30 hy hx, px_gzip _ _ _ H W y x hs7 h15 hy hx,
    px_gzip _ _ _ H W y x hs3 h7 hy hx, px_gzip _ _ _ H W y x hz h3 hy hx,
    px_gmap _ _ H W y x h0 hy hx, px_distField H W fx fy y x cosT sinT hy hx]
  rw [zero_add]

theorem px_contactField (C : Collab) (maskR : Gray) (fy : ℕ) (H W y x : ℕ)
    (he : HasDims (C.edt (gmap (fun v => 1 - v) maskR)) H W)
    (hy : y < H) (hx : x < W) :
    px (contactField C maskR fy) y x
      = if (y : ℤ) < (fy : ℤ) - 5 then 0
        else C.exp (-(px (C.edt (gmap (fun v => 1 - v) maskR)) y x) / 4) := by
  simp only [contactField]
  rw [px_gIdxMap _ _ H W y x (hasDims_gmap _ _ H W he) hy hx,
    px_gmap _ _ H W y x he hy hx]

theorem px_finalShadow (soft contact : Gray) (H W y x : ℕ)
    (hs : HasDims soft H W) (hc : HasDims contact H W) (hy : y < H) (hx : x < W) :
    px (finalShadow soft contact) y x
      = min 1 (max 0 (max (px soft y x) (px contact y x * (17 / 20)))) := by
  simp only [finalShadow]
  rw [px_gmap _ _ H W y x
      (hasDims_gzip _ _ _ H W hs (hasDims_gmap _ _ H W hc)) hy hx,
    px_gzip _ _ _ H W y x hs (hasDims_gmap _ _ H W hc) hy hx,
    px_gmap _ _ H W y x hc hy hx]

theorem cpx_darken (bg : Color) (sh : Gray) (H W y x : ℕ)
    (hb : HasDims bg H W) (hs : HasDims sh H W) (hy : y < H) (hx : x < W) :
    cpx (darken bg sh) y x = pmul (cpx bg y x) (1 - px sh y x) := by
  simp only [cpx, px, darken]
  rw [getD_zipWith _ bg sh y [] [] [] (hy.trans_eq hb.1.symm) (hy.trans_eq hs.1.symm)]
  exact getD_zipWith _ _ _ x (0, 0, 0) 0 (0, 0, 0)
    (by rw [getD_row_length bg H W y hb hy]; exact hx)
    (by rw [getD_row_length sh H W y hs hy]; exact hx)

theorem cpx_blendFg (c fgR : Color) (m : Gray) (H W y x : ℕ)
    (hc : HasDims c H W) (hf : HasDims fgR H W) (hm : HasDims m H W)
    (hy : y < H) (hx : x < W) :
    cpx (blendFg c fgR m) y x
      = padd (pmul (cpx c y x) (1 - px m y x)) (pmul (cpx fgR y x) (px m y x)) := by
  have hp : HasDims (List.zipWith (fun rf rm => List.zipWith Prod.mk rf rm) fgR m) H W :=
    hasDims_zipWith_rows _ W
      (fun ra rb hra hrb => by simp [List.length_zipWith, hra, hrb]) fgR m H hf hm
  simp only [cpx, px, blendFg]
  rw [getD_zipWith _ c _ y [] [] [] (hy.trans_eq hc.1.symm) (hy.trans_eq hp.1.symm)]
  rw [getD_zipWith _ _ _ x (0, 0, 0) ((0, 0, 0), 0) (0, 0, 0)
    (by rw [getD_row_length c H W y hc hy]; exact hx)
    (by rw [getD_row_length _ H W y hp hy]; exact hx)]
  rw [getD_zipWith _ fgR m y [] [] [] (hy.trans_eq hf.1.symm) (hy.trans_eq hm.1.symm)]
  rw [getD_zipWith Prod.mk _ _ x (0, 0, 0) 0 ((0, 0, 0), 0)
    (by rw [getD_row_length fgR H W y hf hy]; exact hx)
    (by rw [getD_row_length m H W y hm hy]; exact hx)]

theorem cpx_composeImg (bg fgR : Color) (maskR sh : Gray) (H W y x : ℕ)
    (hb : HasDims bg H W) (hf : HasDims fgR H W) (hm : HasDims maskR H W)
    (hs : HasDims sh H W) (hy : y < H) (hx : x < W) :
    cpx (composeImg bg fgR maskR sh) y x
      = padd (pmul (pmul (cpx bg y x) (1 - px sh y x)) (1 - px maskR y x))
          (pmul (cpx fgR y x) (px maskR y x)) := by
  simp only [composeImg]
  rw [cpx_blendFg _ _ _ H W y x (hasDims_darken _ _ H W hb hs) hf hm hy hx,
    cpx_darken _ _ H W y x hb hs hy hx]

end PointwiseLemmas

section FootPointLemmas

theorem mem_whereGT (t : ℚ) (img : Gray) (p : ℕ × ℕ) :
    p ∈ whereGT t img ↔
      p.1 < img.length ∧ p.2 < (img.getD p.1 []).length ∧ t < px img p.1 p.2 := by
  obtain ⟨y, x⟩ := p
  simp only [whereGT, List.mem_flatMap, List.mem_map, List.mem_filter, List.mem_range,
    decide_eq_true_eq, Prod.mk.injEq]
  constructor
  · rintro ⟨y', hy', x', ⟨hx', ht⟩, rfl, rfl⟩
    exact ⟨hy', hx', ht⟩
  · rintro ⟨hy, hx, ht⟩
    exact ⟨y, hy, x, ⟨hx, ht⟩, rfl, rfl⟩

theorem whereGT_eq_nil (t : ℚ) (img : Gray) (h : AllPx (fun v => v ≤ t) img) :
    whereGT t img = [] := by
  rw [List.eq_nil_iff_forall_not_mem]
  intro p hp
  rw [mem_whereGT] at hp
  have hle := h _ (getD_mem img p.1 [] hp.1) _ (getD_mem _ p.2 0 hp.2.1)
  exact absurd hp.2.2 (not_lt.2 hle)

theorem footPoint_eq_none (mask : Gray) (h : whereGT (1 / 5) mask = []) :
    footPoint mask = none := by
  simp only [footPoint, h]

theorem footPoint_eq_some (mask : Gray) (a : ℕ × ℕ) (t : List (ℕ × ℕ))
    (h : whereGT (1 / 5) mask = a :: t) :
    footPoint mask
      = some (((a :: t).map Prod.fst).foldl max 0,
          ((a :: t).map Prod.snd).sum / (a :: t).length) := by
  simp only [footPoint, h]

theorem whereGT_nodup (t : ℚ) (img : Gray) : (whereGT t img).Nodup := by
  rw [whereGT, List.nodup_flatMap]
  constructor
  · intro y hy
    exact ((List.nodup_range _).filter _).map fun u v huv => by
      simpa using congrArg Prod.snd huv
  · refine List.Pairwise.imp ?_ (List.pairwise_lt_range _)
    intro a b hab p hpa hpb
    obtain ⟨xa, -, rfl⟩ := List.mem_map.1 hpa
    obtain ⟨xb, -, h⟩ := List.mem_map.1 hpb
    have : b = a := congrArg Prod.fst h
    omega

/-- The set of pixels of an `H×W` mask whose opacity strictly exceeds `0.2`
(the spec's "mask pixels exceeding opacity 0.2"), written independently of
the row-major scan of the code. -/
def overThreshold (mask : Gray) (H W : ℕ) : Finset (ℕ × ℕ) :=
  (Finset.range H ×ˢ Finset.range W).filter fun p => (1 : ℚ) / 5 < px mask p.1 p.2

theorem toFinset_whereGT (mask : Gray) (H W : ℕ) (hd : HasDims mask H W) :
    (whereGT (1 / 5) mask).toFinset = overThreshold mask H W := by
  ext p
  rw [List.mem_toFinset, mem_whereGT, overThreshold, Finset.mem_filter, Finset.mem_product,
    Finset.mem_range, Finset.mem_range]
  constructor
  · rintro ⟨h1, h2, h3⟩
    have hy : p.1 < H := hd.1 ▸ h1
    have hx : p.2 < W := by
      rw [getD_row_length mask H W p.1 hd hy] at h2; exact h2
    exact ⟨⟨hy, hx⟩, h3⟩
  · rintro ⟨⟨hy, hx⟩, h3⟩
    refine ⟨hd.1.symm ▸ hy, ?_, h3⟩
    rw [getD_row_length mask H W p.1 hd hy]
    exact hx

end FootPointLemmas

/-- A trivial instantiation of the external collaborators, used to evaluate
the pipeline on concrete inputs: resizing, warping, blurring and the distance
transform are the identity on the image, and the exponential stand-in is an
arbitrary total function. -/
def idCollab : Collab where
  resizeG := fun _ _ m => m
  resizeC := fun _ _ m => m
  warp := fun _ _ _ _ m => m
  blur := fun _ m => m
  edt := fun m => m
  exp := fun q => 1 - q

/-- C1: a mask in which no pixel has opacity strictly greater than 0.2 makes
`generate_shadow` fail with the fatal DegenerateMask condition — the empty
selection of `np.where(mask > 0.2)` on line 82 makes `ys.max()` on line 83
raise — rather than computing a foot point or producing an output.  The
hypothesis `hres` is the documented property of the linear-interpolation
resize that its output values stay within the bounds of its input values. -/
theorem c1_degenerate_mask_fatal (C : Collab) (fg_rgb bg_rgb : Color) (mask : Gray)
    (cosT sinT tanPhi : ℚ)
    (hmask : AllPx (fun v => v ≤ 1 / 5) mask)
    (hres : AllPx (fun v => v ≤ 1 / 5) mask →
      AllPx (fun v => v ≤ 1 / 5) (C.resizeG bg_rgb.length (bg_rgb.headD []).length mask)) :
    generateShadow C fg_rgb mask bg_rgb cosT sinT tanPhi
      = .error .degenerateMask := by
  have h0 := footPoint_eq_none _ (whereGT_eq_nil _ _ (hres hmask))
  simp only [generateShadow, h0]

/-- Witness for C1 at a concrete all-zero 1×1 mask. -/
theorem c1_degenerate_mask_fatal_witness :
    generateShadow idCollab [[(0, 0, 0)]] [[0]] [[(0, 0, 0)]] 0 0 0
      = .error .degenerateMask :=
  c1_degenerate_mask_fatal idCollab [[(0, 0, 0)]] [[(0, 0, 0)]] [[0]] 0 0 0
    (by norm_num [AllPx]) (fun h => by norm_num [AllPx, idCollab])

/-- C3: for a mask with at least one pixel of opacity strictly above 0.2, the
foot point of lines 82-84 is: `foot_y` the maximum row index among all such
pixels, and `foot_x` the mean column index over all such pixels (not
restricted to the foot row) truncated to an integer — for these nonnegative
values, the floor of the exact mean, i.e. the natural-number quotient of the
sum of the column indices by their count.  In `generate_shadow` this is
applied to the resized mask. -/
theorem c3_foot_point (mask : Gray) (H W fy fx : ℕ) (hd : HasDims mask H W)
    (hfoot : footPoint mask = some (fy, fx)) :
    ((∃ x, x < W ∧ 1 / 5 < px mask fy x)
      ∧ (∀ y, y < H → ∀ x, x < W → 1 / 5 < px mask y x → y ≤ fy))
    ∧ fx = (∑ p ∈ overThreshold mask H W, p.2) / (overThreshold mask H W).card := by
  rcases hw : whereGT (1 / 5) mask with _ | ⟨a, t⟩
  · rw [footPoint_eq_none mask hw] at hfoot
    exact absurd hfoot (by simp)
  have hfp := footPoint_eq_some mask a t hw
  rw [hfoot] at hfp
  have hpair := Option.some.inj hfp
  have hfy : fy = ((a :: t).map Prod.fst).foldl max 0 := congrArg Prod.fst hpair
  have hfx : fx = ((a :: t).map Prod.snd).sum / (a :: t).length := congrArg Prod.snd hpair
  have hub : ∀ y, y < H → ∀ x, x < W → 1 / 5 < px mask y x → y ≤ fy := by
    intro y hy x hx hq
    have hmem : (y, x) ∈ whereGT (1 / 5) mask := by
      refine (mem_whereGT _ _ _).2 ⟨?_, ?_, hq⟩
      · rw [hd.1]; exact hy
      · rw [getD_row_length mask H W y hd hy]; exact hx
    rw [hw] at hmem
    have hy' : y ∈ (a :: t).map Prod.fst := List.mem_map.2 ⟨(y, x), hmem, rfl⟩
    exact hfy ▸ le_foldl_max _ 0 y hy'
  have hex : ∃ x, x < W ∧ 1 / 5 < px mask fy x := by
    have hp : ∃ p ∈ (a :: t), Prod.fst p = fy := by
      rcases foldl_max_mem ((a :: t).map Prod.fst) 0 with h0 | hm
      · have ha : Prod.fst a ≤ ((a :: t).map Prod.fst).foldl max 0 :=
          le_foldl_max _ 0 _ (List.mem_map.2 ⟨a, by simp, rfl⟩)
        exact ⟨a, by simp, by omega⟩
      · obtain ⟨p, hp, hp1⟩ := List.mem_map.1 hm
        exact ⟨p, hp, hfy ▸ hp1⟩
    obtain ⟨p, hp, hp1⟩ := hp
    have hmem : p ∈ whereGT (1 / 5) mask := hw ▸ hp
    rw [mem_whereGT] at hmem
    refine ⟨p.2, ?_, ?_⟩
    · have h2 := hmem.2.1
      rwa [getD_row_length mask H W p.1 hd (hd.1 ▸ hmem.1)] at h2
    · rw [← hp1]; exact hmem.2.2
  have hnd := whereGT_nodup (1 / 5) mask
  have hcard : (overThreshold mask H W).card = (a :: t).length := by
    rw [← toFinset_whereGT mask H W hd, hw, List.toFinset_card_of_nodup (hw ▸ hnd)]
  have hsum : (∑ p ∈ overThreshold mask H W, p.2) = ((a :: t).map Prod.snd).sum := by
    rw [← toFinset_whereGT mask H W hd, hw, List.sum_toFinset _ (hw ▸ hnd)]
  exact ⟨⟨hex, hub⟩, by rw [hsum, hcard]; exact hfx⟩

/-- Witness for C3 at a concrete 2×2 mask with qualifying pixels (0,1) and
(1,0): the foot point is row 1 and truncated mean column (1+0)/2 = 0. -/
theorem c3_foot_point_witness :
    ((∃ x, x < 2 ∧ 1 / 5 < px [[0, 1/2], [3/10, 0]] 1 x)
      ∧ (∀ y, y < 2 → ∀ x, x < 2 → 1 / 5 < px [[0, 1/2], [3/10, 0]] y x → y ≤ 1))
    ∧ 0 = (∑ p ∈ overThreshold [[0, 1/2], [3/10, 0]] 2 2, p.2)
        / (overThreshold [[0, 1/2], [3/10, 0]] 2 2).card :=
  c3_foot_point [[0, 1/2], [3/10, 0]] 2 2 1 0 (by decide)
    (by norm_num [footPoint, whereGT, px, List.range_succ, List.filter])

/-- C2: for every angle and elevation in degrees, lines 69-77 compute the
light direction `(cos θr, sin θr)` with `θr` the angle in radians
(`θ·π/180`), the shadow length `220 / max(0.2, tan φr)` with `φr` the
elevation in radians, and the displacement `(dx, dy)` equal to the light
direction scaled by the shadow length with each component truncated toward
zero to an integer. -/
theorem c2_light_direction_and_displacement (a e : ℝ) :
    lightDir a = (Real.cos (a * (Real.pi / 180)), Real.sin (a * (Real.pi / 180)))
    ∧ shadowLen e = 220 / max (1 / 5) (Real.tan (e * (Real.pi / 180)))
    ∧ shadowDisp a e
      = (truncR (Real.cos (a * (Real.pi / 180))
            * (220 / max (1 / 5) (Real.tan (e * (Real.pi / 180))))),
         truncR (Real.sin (a * (Real.pi / 180))
            * (220 / max (1 / 5) (Real.tan (e * (Real.pi / 180)))))) := by
  have h02 : (0.2 : ℝ) = 1 / 5 := by norm_num
  refine ⟨rfl, ?_, ?_⟩ <;> simp [shadowDisp, shadowLen, lightDir, deg2rad, h02]

/-- C9: on elevations strictly between 0° and 90° the shadow length
`220 / max(0.2, tan φ)` is antitone and strictly positive; it is bounded
above by 220 / 0.2 = 1100 everywhere because of the 0.2 floor on `tan`, it
tends to this maximum as the elevation tends to 0° from above, and it tends
to 0 — the infimum reached at the 90° end of the interval, where exact `tan`
has its pole — as the elevation tends to 90° from below. -/
theorem c9_shadow_len_extremes :
    (∀ a b : ℝ, a ∈ Set.Ioo (0 : ℝ) 90 → b ∈ Set.Ioo (0 : ℝ) 90 → a ≤ b →
        shadowLen b ≤ shadowLen a)
    ∧ (∀ e : ℝ, 0 < shadowLen e ∧ shadowLen e ≤ 1100)
    ∧ Filter.Tendsto shadowLen (nhdsWithin 0 (Set.Ioi (0 : ℝ))) (nhds 1100)
    ∧ Filter.Tendsto shadowLen (nhdsWithin 90 (Set.Iio (90 : ℝ))) (nhds 0) := by
  have hrange : ∀ x : ℝ, x ∈ Set.Ioo (0 : ℝ) 90 →
      deg2rad x ∈ Set.Ioo (-(Real.pi / 2)) (Real.pi / 2) := by
    intro x hx
    unfold deg2rad
    constructor
    · nlinarith [Real.pi_pos, hx.1, hx.2]
    · nlinarith [Real.pi_pos, hx.1, hx.2]
  refine ⟨?_, ?_, ?_, ?_⟩
  · intro a b ha hb hab
    have hm : deg2rad a ≤ deg2rad b := by
      unfold deg2rad
      exact mul_le_mul_of_nonneg_right hab (by positivity)
    have htan : Real.tan (deg2rad a) ≤ Real.tan (deg2rad b) :=
      Real.strictMonoOn_tan.monotoneOn (hrange a ha) (hrange b hb) hm
    unfold shadowLen
    have h1 : (0 : ℝ) < max 0.2 (Real.tan (deg2rad a)) :=
      lt_max_iff.2 (Or.inl (by norm_num))
    exact div_le_div_of_nonneg_left (by norm_num) h1 (max_le_max le_rfl htan)
  · intro e
    unfold shadowLen
    constructor
    · exact div_pos (by norm_num) (lt_max_iff.2 (Or.inl (by norm_num)))
    · calc 220 / max 0.2 (Real.tan (deg2rad e)) ≤ 220 / 0.2 :=
            div_le_div_of_nonneg_left (by norm_num) (by norm_num) (le_max_left _ _)
        _ = 1100 := by norm_num
  · have hcont : ContinuousAt (fun e : ℝ => Real.tan (deg2rad e)) 0 := by
      have h1 : ContinuousAt Real.tan (deg2rad 0) := by
        rw [show deg2rad 0 = 0 by simp [deg2rad]]
        exact Real.continuousAt_tan.2 (by rw [Real.cos_zero]; norm_num)
      exact h1.comp ((continuous_mul_right (Real.pi / 180)).continuousAt)
    have h0 : Real.tan (deg2rad 0) = 0 := by
      simp [deg2rad, Real.tan_zero]
    have h2 : ∀ᶠ e in nhds (0 : ℝ), Real.tan (deg2rad e) < 0.2 := by
      have h3 : Filter.Tendsto (fun e : ℝ => Real.tan (deg2rad e)) (nhds 0) (nhds 0) := by
        have := hcont.tendsto
        rwa [h0] at this
      exact Filter.Tendsto.eventually_lt_const (by norm_num) h3
    have hev : ∀ᶠ e in nhdsWithin 0 (Set.Ioi (0 : ℝ)), shadowLen e = 1100 := by
      refine (h2.filter_mono nhdsWithin_le_nhds).mono fun e he => ?_
      unfold shadowLen
      rw [max_eq_left he.le]
      norm_num
    exact Filter.Tendsto.congr' (Filter.EventuallyEq.symm hev) tendsto_const_nhds
  · have hdeg : Filter.Tendsto deg2rad (nhdsWithin 90 (Set.Iio (90 : ℝ)))
        (nhdsWithin (Real.pi / 2) (Set.Iio (Real.pi / 2))) := by
      rw [tendsto_nhdsWithin_iff]
      constructor
      · have h90 : (90 : ℝ) * (Real.pi / 180) = Real.pi / 2 := by ring
        have h1 := ((continuous_mul_right (Real.pi / 180)).tendsto (90 : ℝ)).mono_left
          (nhdsWithin_le_nhds (s := Set.Iio (90 : ℝ)))
        rw [h90] at h1
        exact h1
      · refine eventually_nhdsWithin_of_forall ?_
        intro x hx
        have hlt : x * (Real.pi / 180) < 90 * (Real.pi / 180) :=
          mul_lt_mul_of_pos_right hx (by positivity)
        have h90 : (90 : ℝ) * (Real.pi / 180) = Real.pi / 2 := by ring
        rw [h90] at hlt
        exact hlt
    have htan : Filter.Tendsto (fun e : ℝ => Real.tan (deg2rad e))
        (nhdsWithin 90 (Set.Iio (90 : ℝ))) Filter.atTop :=
      Real.tendsto_tan_pi_div_two.comp hdeg
    have hmaxt : Filter.Tendsto (fun e : ℝ => max 0.2 (Real.tan (deg2rad e)))
        (nhdsWithin 90 (Set.Iio (90 : ℝ))) Filter.atTop :=
      Filter.tendsto_atTop_mono (fun e => le_max_right _ _) htan
    exact Filter.Tendsto.div_atTop tendsto_const_nhds hmaxt

/-- Witness for C9 at the concrete elevations 45° and 60°. -/
theorem c9_shadow_len_extremes_witness :
    shadowLen 60 ≤ shadowLen 45 ∧ 0 < shadowLen 45 ∧ shadowLen 45 ≤ 1100 :=
  ⟨c9_shadow_len_extremes.1 45 60 (by norm_num [Set.mem_Ioo])
      (by norm_num [Set.mem_Ioo]) (by norm_num),
   (c9_shadow_len_extremes.2.1 45).1, (c9_shadow_len_extremes.2.1 45).2⟩

/-- C4: at every background pixel `(x, y)`, the soft shadow field computed by
`generate_shadow` (lines 96-113, the `softShadowField` step of the pipeline)
equals the average — sum divided by 4 — of the translated silhouette blurred
at the four fixed Gaussian radii 3, 7, 15 and 30, multiplied elementwise by
`exp(-dist / 160)` where
`dist = max(0, (x - foot_x)·lightDir.x + (y - foot_y)·lightDir.y)`.
The hypotheses record that the Gaussian blur collaborator preserves the
image shape, as documented for `cv2.GaussianBlur`. -/
theorem c4_soft_shadow_formula (C : Collab) (shadow0 : Gray) (fx fy : ℕ)
    (cosT sinT : ℚ) (H W y x : ℕ) (h0 : HasDims shadow0 H W)
    (hb : ∀ r ∈ [3, 7, 15, 30], HasDims (C.blur r shadow0) H W)
    (hy : y < H) (hx : x < W) :
    px (softShadowField C shadow0 fx fy cosT sinT H W) y x
      = ((px (C.blur 3 shadow0) y x + px (C.blur 7 shadow0) y x
          + px (C.blur 15 shadow0) y x + px (C.blur 30 shadow0) y x) / 4)
        * C.exp (-(max 0 (((x : ℚ) - (fx : ℚ)) * cosT + ((y : ℚ) - (fy : ℚ)) * sinT)) / 160) :=
  px_softShadowField C shadow0 fx fy cosT sinT H W y x h0 hb hy hx

/-- Witness for C4 on a concrete 1×1 silhouette with the identity blur. -/
theorem c4_soft_shadow_formula_witness :
    px (softShadowField idCollab [[1]] 0 0 0 0 1 1) 0 0
      = ((px (idCollab.blur 3 [[1]]) 0 0 + px (idCollab.blur 7 [[1]]) 0 0
          + px (idCollab.blur 15 [[1]]) 0 0 + px (idCollab.blur 30 [[1]]) 0 0) / 4)
        * idCollab.exp (-(max 0 (((0 : ℚ) - (0 : ℚ)) * 0 + ((0 : ℚ) - (0 : ℚ)) * 0)) / 160) :=
  c4_soft_shadow_formula idCollab [[1]] 0 0 0 0 1 1 0 0 (by decide)
    (by decide) (by decide) (by decide)

/-- C5: at every pixel, the contact shadow of lines 118-121 equals
`exp(-d / 4.0)` where `d` is the Euclidean distance transform of the mask's
complement `1 - mask`, set to 0 at every pixel whose row index is strictly
above `foot_y - 5`; and the final shadow field of lines 123-124 equals the
pixelwise maximum of the soft shadow field and 0.85 times the contact
shadow, clipped to [0, 1]. -/
theorem c5_contact_shadow_and_merge (C : Collab) (maskR : Gray) (fy : ℕ)
    (soft : Gray) (H W y x : ℕ)
    (he : HasDims (C.edt (gmap (fun v => 1 - v) maskR)) H W)
    (hs : HasDims soft H W) (hy : y < H) (hx : x < W) :
    px (contactField C maskR fy) y x
      = (if (y : ℤ) < (fy : ℤ) - 5 then 0
         else C.exp (-(px (C.edt (gmap (fun v => 1 - v) maskR)) y x) / 4))
    ∧ px (finalShadow soft (contactField C maskR fy)) y x
      = min 1 (max 0 (max (px soft y x)
          (px (contactField C maskR fy) y x * (17 / 20)))) :=
  ⟨px_contactField C maskR fy H W y x he hy hx,
   px_finalShadow soft _ H W y x hs (hasDims_contactField C maskR fy H W he) hy hx⟩

/-- Witness for C5 on a concrete 1×1 mask with the identity collaborators. -/
theorem c5_contact_shadow_and_merge_witness :
    px (contactField idCollab [[1]] 0) 0 0
      = (if (0 : ℤ) < (0 : ℤ) - 5 then 0
         else idCollab.exp (-(px (idCollab.edt (gmap (fun v => 1 - v) [[1]])) 0 0) / 4))
    ∧ px (finalShadow [[1]] (contactField idCollab [[1]] 0)) 0 0
      = min 1 (max 0 (max (px [[1]] 0 0)
          (px (contactField idCollab [[1]] 0) 0 0 * (17 / 20)))) :=
  c5_contact_shadow_and_merge idCollab [[1]] 0 [[1]] 1 1 0 0 (by decide)
    (by decide) (by decide) (by decide)

theorem headD_eq_getD {α : Type} (l : List α) (d : α) : l.headD d = l.getD 0 d := by
  cases l <;> rfl

/-- The triple returned by `generate_shadow` when the foot-point computation
succeeds, with the background dimensions `H`, `W` and the foot point
`(fy, fx)` made explicit. -/
def okResult (C : Collab) (fg_rgb : Color) (mask : Gray) (bg_rgb : Color)
    (cosT sinT tanPhi : ℚ) (H W fy fx : ℕ) : Color × Gray × Gray :=
  let fgR := C.resizeC H W fg_rgb
  let maskR := C.resizeG H W mask
  let dx := itrunc (cosT * shadowLenOf tanPhi)
  let dy := itrunc (sinT * shadowLenOf tanPhi)
  let soft := softShadowField C (C.warp dx dy H W maskR) fx fy cosT sinT H W
  let sh := finalShadow soft (contactField C maskR fy)
  (composeImg bg_rgb fgR maskR sh, sh, maskR)

theorem generateShadow_eq_ok (C : Collab) (fg_rgb : Color) (mask : Gray)
    (bg_rgb : Color) (cosT sinT tanPhi : ℚ) (H W fy fx : ℕ)
    (hbg : HasDims bg_rgb H W) (hH : 0 < H)
    (hfoot : footPoint (C.resizeG H W mask) = some (fy, fx)) :
    generateShadow C fg_rgb mask bg_rgb cosT sinT tanPhi
      = .ok (okResult C fg_rgb mask bg_rgb cosT sinT tanPhi H W fy fx) := by
  have h1 : bg_rgb.length = H := hbg.1
  have h2 : (bg_rgb.headD []).length = W := by
    rw [headD_eq_getD]
    exact getD_row_length bg_rgb H W 0 hbg hH []
  simp only [generateShadow, okResult, h1, h2, hfoot]

/-- C8: for all valid inputs — a rectangular background and a qualifying
mask — the three outputs of `generate_shadow` (the composite, the
shadow-only image, and the mask-debug image) all have the background's
spatial dimensions `H×W`.  The hypotheses record the documented shape
behaviour of the collaborators: `cv2.resize` and `cv2.warpAffine` return
the requested output size, `cv2.GaussianBlur` and the distance transform
preserve shape. -/
theorem c8_output_dims (C : Collab) (fg_rgb : Color) (mask : Gray)
    (bg_rgb : Color) (cosT sinT tanPhi : ℚ) (H W fy fx : ℕ)
    (hbg : HasDims bg_rgb H W) (hH : 0 < H)
    (hmR : HasDims (C.resizeG H W mask) H W)
    (hfR : HasDims (C.resizeC H W fg_rgb) H W)
    (hwarp : ∀ dx dy : ℤ, ∀ g : Gray, HasDims (C.warp dx dy H W g) H W)
    (hblur : ∀ r : ℕ, ∀ g : Gray, HasDims g H W → HasDims (C.blur r g) H W)
    (hedt : ∀ g : Gray, HasDims g H W → HasDims (C.edt g) H W)
    (hfoot : footPoint (C.resizeG H W mask) = some (fy, fx)) :
    generateShadow C fg_rgb mask bg_rgb cosT sinT tanPhi
      = .ok (okResult C fg_rgb mask bg_rgb cosT sinT tanPhi H W fy fx)
    ∧ HasDims (okResult C fg_rgb mask bg_rgb cosT sinT tanPhi H W fy fx).1 H W
    ∧ HasDims (okResult C fg_rgb mask bg_rgb cosT sinT tanPhi H W fy fx).2.1 H W
    ∧ HasDims (okResult C fg_rgb mask bg_rgb cosT sinT tanPhi H W fy fx).2.2 H W := by
  have hwd : HasDims (C.warp (itrunc (cosT * shadowLenOf tanPhi))
      (itrunc (sinT * shadowLenOf tanPhi)) H W (C.resizeG H W mask)) H W :=
    hwarp _ _ _
  have hsoft : HasDims (softShadowField C
      (C.warp (itrunc (cosT * shadowLenOf tanPhi)) (itrunc (sinT * shadowLenOf tanPhi))
        H W (C.resizeG H W mask)) fx fy cosT sinT H W) H W :=
    hasDims_softShadowField C _ fx fy cosT sinT H W hwd fun r _ => hblur r _ hwd
  have hcont : HasDims (contactField C (C.resizeG H W mask) fy) H W :=
    hasDims_contactField C _ fy H W (hedt _ (hasDims_gmap _ _ H W hmR))
  have hsh : HasDims (finalShadow (softShadowField C
      (C.warp (itrunc (cosT * shadowLenOf tanPhi)) (itrunc (sinT * shadowLenOf tanPhi))
        H W (C.resizeG H W mask)) fx fy cosT sinT H W)
      (contactField C (C.resizeG H W mask) fy)) H W :=
    hasDims_finalShadow _ _ H W hsoft hcont
  refine ⟨generateShadow_eq_ok C fg_rgb mask bg_rgb cosT sinT tanPhi H W fy fx hbg hH hfoot,
    ?_, ?_, ?_⟩
  · simp only [okResult]
    exact hasDims_composeImg _ _ _ _ H W hbg hfR hmR hsh
  · simp only [okResult]
    exact hsh
  · simp only [okResult]
    exact hmR

/-- A concrete instantiation of the collaborators in which resizing and
warping return an image of the requested size and the shape-preserving
operations are the identity, used to evaluate the pipeline on concrete
inputs. -/
def resizingCollab : Collab where
  resizeG := fun H W _ => List.replicate H (List.replicate W 1)
  resizeC := fun H W _ => List.replicate H (List.replicate W (1, 1, 1))
  warp := fun _ _ H W _ => List.replicate H (List.replicate W 1)
  blur := fun _ g => g
  edt := fun g => g
  exp := fun q => q

/-- Witness for C8 on concrete 1×1 images. -/
theorem c8_output_dims_witness :
    generateShadow resizingCollab [[(1, 1, 1)]] [[1]] [[(1, 1, 1)]] 0 0 0
      = .ok (okResult resizingCollab [[(1, 1, 1)]] [[1]] [[(1, 1, 1)]] 0 0 0 1 1 0 0)
    ∧ HasDims (okResult resizingCollab [[(1, 1, 1)]] [[1]] [[(1, 1, 1)]] 0 0 0 1 1 0 0).1 1 1
    ∧ HasDims (okResult resizingCollab [[(1, 1, 1)]] [[1]] [[(1, 1, 1)]] 0 0 0 1 1 0 0).2.1 1 1
    ∧ HasDims (okResult resizingCollab [[(1, 1, 1)]] [[1]] [[(1, 1, 1)]] 0 0 0 1 1 0 0).2.2 1 1 :=
  c8_output_dims resizingCollab [[(1, 1, 1)]] [[1]] [[(1, 1, 1)]] 0 0 0 1 1 0 0
    (by decide) (by decide) (by decide) (by decide)
    (fun _ _ _ => by show HasDims [[(1 : ℚ)]] 1 1; decide)
    (fun _ _ h => h) (fun _ h => h)
    (by norm_num [resizingCollab, footPoint, whereGT, px, List.range_succ, List.replicate])

theorem hasDims_shadow_step (C : Collab) (mask : Gray) (cosT sinT tanPhi : ℚ)
    (H W fy fx : ℕ)
    (hmR : HasDims (C.resizeG H W mask) H W)
    (hwarp : ∀ dx dy : ℤ, ∀ g : Gray, HasDims (C.warp dx dy H W g) H W)
    (hblur : ∀ r : ℕ, ∀ g : Gray, HasDims g H W → HasDims (C.blur r g) H W)
    (hedt : ∀ g : Gray, HasDims g H W → HasDims (C.edt g) H W) :
    HasDims (finalShadow (softShadowField C
      (C.warp (itrunc (cosT * shadowLenOf tanPhi)) (itrunc (sinT * shadowLenOf tanPhi))
        H W (C.resizeG H W mask)) fx fy cosT sinT H W)
      (contactField C (C.resizeG H W mask) fy)) H W := by
  have hwd := hwarp (itrunc (cosT * shadowLenOf tanPhi)) (itrunc (sinT * shadowLenOf tanPhi))
    (C.resizeG H W mask)
  exact hasDims_finalShadow _ _ H W
    (hasDims_softShadowField C _ fx fy cosT sinT H W hwd fun r _ => hblur r _ hwd)
    (hasDims_contactField C _ fy H W (hedt _ (hasDims_gmap _ _ H W hmR)))

/-- The three channel values of a pixel. -/
def chans (p : Pix) : List ℚ := [p.1, p.2.1, p.2.2]

theorem allPx_px (P : ℚ → Prop) (img : Gray) (H W y x : ℕ) (hP : AllPx P img)
    (hd : HasDims img H W) (hy : y < H) (hx : x < W) : P (px img y x) := by
  have h1 : img.getD y [] ∈ img := getD_mem img y [] (by rw [hd.1]; exact hy)
  have h2 : (img.getD y []).getD x 0 ∈ img.getD y [] :=
    getD_mem _ x 0 (by rw [getD_row_length img H W y hd hy]; exact hx)
  exact hP _ h1 _ h2

theorem allCh_cpx (P : ℚ → Prop) (img : Color) (H W y x : ℕ) (hP : AllCh P img)
    (hd : HasDims img H W) (hy : y < H) (hx : x < W) :
    P (cpx img y x).1 ∧ P (cpx img y x).2.1 ∧ P (cpx img y x).2.2 := by
  have h1 : img.getD y [] ∈ img := getD_mem img y [] (by rw [hd.1]; exact hy)
  have h2 : (img.getD y []).getD x (0, 0, 0) ∈ img.getD y [] :=
    getD_mem _ x (0, 0, 0) (by rw [getD_row_length img H W y hd hy]; exact hx)
  exact hP _ h1 _ h2

theorem channel_bound (b f m s : ℚ) (hb0 : 0 ≤ b) (hb1 : b ≤ 255)
    (hf0 : 0 ≤ f) (hf1 : f ≤ 255) (hm0 : 0 ≤ m) (hm1 : m ≤ 1)
    (hs0 : 0 ≤ s) (hs1 : s ≤ 1) :
    0 ≤ b * (1 - s) * (1 - m) + f * m ∧ b * (1 - s) * (1 - m) + f * m ≤ 255 := by
  constructor
  · have h1 : 0 ≤ b * (1 - s) := mul_nonneg hb0 (by linarith)
    have h2 : 0 ≤ b * (1 - s) * (1 - m) := mul_nonneg h1 (by linarith)
    have h3 : 0 ≤ f * m := mul_nonneg hf0 hm0
    linarith
  · have h1 : b * (1 - s) ≤ 255 * (1 - s) :=
      mul_le_mul_of_nonneg_right hb1 (by linarith)
    have h1b : b * (1 - s) ≤ 255 := by nlinarith
    have h2 : b * (1 - s) * (1 - m) ≤ 255 * (1 - m) :=
      mul_le_mul_of_nonneg_right h1b (by linarith)
    have h3 : f * m ≤ 255 * m := mul_le_mul_of_nonneg_right hf1 hm0
    linarith

theorem astypeU8_eq (v : ℚ) (h0 : 0 ≤ v) (h255 : v ≤ 255) :
    astypeU8 v = (itrunc v).toNat := by
  have hit : itrunc v = ⌊v⌋ := if_pos h0
  have hfl : ⌊v⌋ ≤ ⌊(255 : ℚ)⌋ := Int.floor_le_floor h255
  have h2 : ⌊(255 : ℚ)⌋ = (255 : ℤ) := by norm_num
  rw [h2] at hfl
  unfold astypeU8
  apply Nat.mod_eq_of_lt
  rw [hit]
  omega

theorem finalShadow_px_bounds (soft contact : Gray) (H W y x : ℕ)
    (hs : HasDims soft H W) (hc : HasDims contact H W) (hy : y < H) (hx : x < W) :
    0 ≤ px (finalShadow soft contact) y x ∧ px (finalShadow soft contact) y x ≤ 1 := by
  rw [px_finalShadow soft contact H W y x hs hc hy hx]
  exact ⟨le_min (by norm_num) (le_max_left 0 _), min_le_left 1 _⟩

/-- C6: per pixel and per channel, the composite of lines 129-131 equals
`bg·(1 - shadow)·(1 - mask) + fg·mask`: the background darkened by
`1 - shadowField` broadcast across channels, then alpha-blended with the
resized foreground using the resized mask as the blend coefficient.  The
shadow factor in the formula is the final shadow field returned by
`generate_shadow` itself (the second output component). -/
theorem c6_composite_formula (C : Collab) (fg_rgb : Color) (mask : Gray)
    (bg_rgb : Color) (cosT sinT tanPhi : ℚ) (H W fy fx : ℕ)
    (hbg : HasDims bg_rgb H W) (hH : 0 < H)
    (hmR : HasDims (C.resizeG H W mask) H W)
    (hfR : HasDims (C.resizeC H W fg_rgb) H W)
    (hwarp : ∀ dx dy : ℤ, ∀ g : Gray, HasDims (C.warp dx dy H W g) H W)
    (hblur : ∀ r : ℕ, ∀ g : Gray, HasDims g H W → HasDims (C.blur r g) H W)
    (hedt : ∀ g : Gray, HasDims g H W → HasDims (C.edt g) H W)
    (hfoot : footPoint (C.resizeG H W mask) = some (fy, fx)) :
    generateShadow C fg_rgb mask bg_rgb cosT sinT tanPhi
      = .ok (okResult C fg_rgb mask bg_rgb cosT sinT tanPhi H W fy fx)
    ∧ ∀ y x : ℕ, y < H → x < W →
        cpx (okResult C fg_rgb mask bg_rgb cosT sinT tanPhi H W fy fx).1 y x
          = padd (pmul (pmul (cpx bg_rgb y x)
                (1 - px (okResult C fg_rgb mask bg_rgb cosT sinT tanPhi H W fy fx).2.1 y x))
              (1 - px (C.resizeG H W mask) y x))
              (pmul (cpx (C.resizeC H W fg_rgb) y x) (px (C.resizeG H W mask) y x)) := by
  refine ⟨generateShadow_eq_ok C fg_rgb mask bg_rgb cosT sinT tanPhi H W fy fx hbg hH hfoot, ?_⟩
  intro y x hy hx
  simp only [okResult]
  exact cpx_composeImg bg_rgb _ _ _ H W y x hbg hfR hmR
    (hasDims_shadow_step C mask cosT sinT tanPhi H W fy fx hmR hwarp hblur hedt) hy hx

/-- Witness for C6 on concrete 1×1 images. -/
theorem c6_composite_formula_witness :
    cpx (okResult resizingCollab [[(1, 1, 1)]] [[1]] [[(1, 1, 1)]] 0 0 0 1 1 0 0).1 0 0
      = padd (pmul (pmul (cpx [[(1, 1, 1)]] 0 0)
            (1 - px (okResult resizingCollab [[(1, 1, 1)]] [[1]] [[(1, 1, 1)]] 0 0 0 1 1 0 0).2.1 0 0))
          (1 - px (resizingCollab.resizeG 1 1 [[1]]) 0 0))
          (pmul (cpx (resizingCollab.resizeC 1 1 [[(1, 1, 1)]]) 0 0)
            (px (resizingCollab.resizeG 1 1 [[1]]) 0 0)) :=
  (c6_composite_formula resizingCollab [[(1, 1, 1)]] [[1]] [[(1, 1, 1)]] 0 0 0 1 1 0 0
    (by decide) (by decide) (by decide) (by decide)
    (fun _ _ _ => by show HasDims [[(1 : ℚ)]] 1 1; decide)
    (fun _ _ h => h) (fun _ h => h)
    (by norm_num [resizingCollab, footPoint, whereGT, px, List.range_succ,
      List.replicate])).2 0 0 (by decide) (by decide)

/-- C10: with 8-bit backgrounds and foregrounds (channel values in [0, 255])
and a mask with values in [0, 1], every channel of every pixel of the
composite lies in [0, 255] — the final shadow field having been clipped to
[0, 1] — so the concluding `astype(np.uint8)` conversion of line 134 never
wraps modulo 256. -/
theorem c10_no_uint8_wrap (C : Collab) (fg_rgb : Color) (mask : Gray)
    (bg_rgb : Color) (cosT sinT tanPhi : ℚ) (H W fy fx : ℕ)
    (hbg : HasDims bg_rgb H W) (hH : 0 < H)
    (hmR : HasDims (C.resizeG H W mask) H W)
    (hfR : HasDims (C.resizeC H W fg_rgb) H W)
    (hwarp : ∀ dx dy : ℤ, ∀ g : Gray, HasDims (C.warp dx dy H W g) H W)
    (hblur : ∀ r : ℕ, ∀ g : Gray, HasDims g H W → HasDims (C.blur r g) H W)
    (hedt : ∀ g : Gray, HasDims g H W → HasDims (C.edt g) H W)
    (hfoot : footPoint (C.resizeG H W mask) = some (fy, fx))
    (hbgB : AllCh (fun v => 0 ≤ v ∧ v ≤ 255) bg_rgb)
    (hfgB : AllCh (fun v => 0 ≤ v ∧ v ≤ 255) (C.resizeC H W fg_rgb))
    (hmB : AllPx (fun v => 0 ≤ v ∧ v ≤ 1) (C.resizeG H W mask)) :
    generateShadow C fg_rgb mask bg_rgb cosT sinT tanPhi
      = .ok (okResult C fg_rgb mask bg_rgb cosT sinT tanPhi H W fy fx)
    ∧ ∀ y x : ℕ, y < H → x < W →
        ∀ v ∈ chans (cpx (okResult C fg_rgb mask bg_rgb cosT sinT tanPhi H W fy fx).1 y x),
          (0 ≤ v ∧ v ≤ 255) ∧ astypeU8 v = (itrunc v).toNat := by
  refine ⟨generateShadow_eq_ok C fg_rgb mask bg_rgb cosT sinT tanPhi H W fy fx hbg hH hfoot, ?_⟩
  intro y x hy hx
  have hwd := hwarp (itrunc (cosT * shadowLenOf tanPhi)) (itrunc (sinT * shadowLenOf tanPhi))
    (C.resizeG H W mask)
  have hsoft := hasDims_softShadowField C _ fx fy cosT sinT H W hwd fun r _ => hblur r _ hwd
  have hcont := hasDims_contactField C (C.resizeG H W mask) fy H W
    (hedt _ (hasDims_gmap _ _ H W hmR))
  have hsB := finalShadow_px_bounds _ _ H W y x hsoft hcont hy hx
  have hm := allPx_px _ _ H W y x hmB hmR hy hx
  have hb := allCh_cpx _ _ H W y x hbgB hbg hy hx
  have hf := allCh_cpx _ _ H W y x hfgB hfR hy hx
  simp only [okResult]
  rw [cpx_composeImg bg_rgb _ _ _ H W y x hbg hfR hmR
    (hasDims_finalShadow _ _ H W hsoft hcont) hy hx]
  intro v hv
  simp only [chans, padd, pmul, List.mem_cons, List.not_mem_nil, or_false] at hv
  rcases hv with rfl | rfl | rfl
  · have hcb := channel_bound _ _ _ _ hb.1.1 hb.1.2 hf.1.1 hf.1.2 hm.1 hm.2 hsB.1 hsB.2
    exact ⟨hcb, astypeU8_eq _ hcb.1 hcb.2⟩
  · have hcb := channel_bound _ _ _ _ hb.2.1.1 hb.2.1.2 hf.2.1.1 hf.2.1.2 hm.1 hm.2 hsB.1 hsB.2
    exact ⟨hcb, astypeU8_eq _ hcb.1 hcb.2⟩
  · have hcb := channel_bound _ _ _ _ hb.2.2.1 hb.2.2.2 hf.2.2.1 hf.2.2.2 hm.1 hm.2 hsB.1 hsB.2
    exact ⟨hcb, astypeU8_eq _ hcb.1 hcb.2⟩

/-- Witness for C10 on concrete 1×1 images, at the first channel. -/
theorem c10_no_uint8_wrap_witness :
    (0 ≤ (cpx (okResult resizingCollab [[(1, 1, 1)]] [[1]] [[(1, 1, 1)]] 0 0 0 1 1 0 0).1 0 0).1
      ∧ (cpx (okResult resizingCollab [[(1, 1, 1)]] [[1]] [[(1, 1, 1)]] 0 0 0 1 1 0 0).1 0 0).1 ≤ 255)
    ∧ astypeU8 (cpx (okResult resizingCollab [[(1, 1, 1)]] [[1]] [[(1, 1, 1)]] 0 0 0 1 1 0 0).1 0 0).1
      = (itrunc (cpx (okResult resizingCollab [[(1, 1, 1)]] [[1]] [[(1, 1, 1)]] 0 0 0 1 1 0 0).1 0 0).1).toNat :=
  (c10_no_uint8_wrap resizingCollab [[(1, 1, 1)]] [[1]] [[(1, 1, 1)]] 0 0 0 1 1 0 0
    (by decide) (by decide) (by decide) (by decide)
    (fun _ _ _ => by show HasDims [[(1 : ℚ)]] 1 1; decide)
    (fun _ _ h => h) (fun _ h => h)
    (by norm_num [resizingCollab, footPoint, whereGT, px, List.range_succ, List.replicate])
    (by decide) (by decide) (by decide)).2 0 0 (by decide) (by decide) _ (by simp [chans])

/-- C7: for a valid (rectangular, nonempty) RGB input image of height `h`
and width `w`, the mask returned by `extract_foreground_mask` has spatial
shape exactly `h×w` and every value lies within [0, 1].  The binarization of
the GrabCut labels on line 42 produces only 0.0 and 1.0; the hypotheses
record the documented behaviour of the collaborators: GrabCut fills its
`h×w` label buffer, and morphological closing (a max/min filter) and the
normalized 5×5 Gaussian blur (a convex combination) preserve both the shape
and the value range [0, 1]. -/
theorem c7_mask_shape_and_range (S : SegCollab) (img : Color) (h w : ℕ)
    (himg : HasDims img h w) (hh : 0 < h)
    (hgc : HasDims (S.grabCut img (gcRect h w)) h w)
    (hmorph_d : ∀ g : Gray, HasDims g h w → HasDims (S.morphClose g) h w)
    (hblur_d : ∀ g : Gray, HasDims g h w → HasDims (S.blur5 g) h w)
    (hmorph_r : ∀ g : Gray, AllPx (fun v => 0 ≤ v ∧ v ≤ 1) g →
      AllPx (fun v => 0 ≤ v ∧ v ≤ 1) (S.morphClose g))
    (hblur_r : ∀ g : Gray, AllPx (fun v => 0 ≤ v ∧ v ≤ 1) g →
      AllPx (fun v => 0 ≤ v ∧ v ≤ 1) (S.blur5 g)) :
    HasDims (extract_foreground_mask S img) h w
    ∧ AllPx (fun v => 0 ≤ v ∧ v ≤ 1) (extract_foreground_mask S img) := by
  have h1 : img.length = h := himg.1
  have h2 : (img.headD []).length = w := by
    rw [headD_eq_getD]
    exact getD_row_length img h w 0 himg hh []
  simp only [extract_foreground_mask, h1, h2]
  constructor
  · exact hblur_d _ (hmorph_d _
      (hasDims_map_rows _ w (fun r hr => by simpa using hr) _ h hgc))
  · refine hblur_r _ (hmorph_r _ ?_)
    intro r hr v hv
    obtain ⟨r0, -, rfl⟩ := List.mem_map.1 hr
    obtain ⟨v0, -, rfl⟩ := List.mem_map.1 hv
    by_cases hc : v0 = 1 ∨ v0 = 3 <;> simp [hc]

/-- A concrete instantiation of the segmentation collaborators: GrabCut
labels every pixel as definite foreground, closing and blur are the
identity. -/
def idSeg : SegCollab where
  grabCut := fun img _ => img.map fun r => r.map fun _ => 1
  morphClose := fun g => g
  blur5 := fun g => g

/-- Witness for C7 on a concrete 1×1 image. -/
theorem c7_mask_shape_and_range_witness :
    HasDims (extract_foreground_mask idSeg [[(1, 1, 1)]]) 1 1
    ∧ AllPx (fun v => 0 ≤ v ∧ v ≤ 1) (extract_foreground_mask idSeg [[(1, 1, 1)]]) :=
  c7_mask_shape_and_range idSeg [[(1, 1, 1)]] 1 1 (by decide) (by decide) (by decide)
    (fun _ h => h) (fun _ h => h) (fun _ h => h) (fun _ h => h)
